import Mathlib

/-!
Verification of `convert_voter_pdf.py` (voter check-in PDF → CSV converter).

The development shallowly embeds the program's core:

* `parse_voter_line` — the line classifier/extractor (source lines 21–46),
  including the Python regular-expression semantics it relies on, embedded
  via a small backtracking engine (`runRE`) faithful to Python `re`'s
  leftmost, greedy/lazy backtracking order;
* `convert_single_pdf` — the per-document pipeline (source lines 49–102):
  open, extract page text, classify lines, deduplicate by `State ID`
  (pandas `drop_duplicates(subset=["State ID"], keep="first")`), write CSV;
* the bulk-folder loop of `main` (source lines 152–159).

Python strings are modelled as `List Char`; the ASCII fragments of the
`\s`, `\d`, `\w` classes are used (all report content relevant to the
claims is ASCII).
-/

namespace VoterPdf

/-- ASCII fragment of Python's `str.strip()` / regex `\s` whitespace class. -/
def isPySpace (c : Char) : Bool :=
  c = ' ' || c = '\t' || c = '\n' || c = '\r' || c = '\x0b' || c = '\x0c'

/-- Regex `\d` (ASCII fragment): decimal digits. -/
def isPyDigit (c : Char) : Bool := '0' ≤ c && c ≤ '9'

/-- Regex `\w` (ASCII fragment): letters, digits, underscore. -/
def isPyWord (c : Char) : Bool :=
  ('a' ≤ c && c ≤ 'z') || ('A' ≤ c && c ≤ 'Z') || isPyDigit c || c = '_'

/-- The class `[\w\.\-]` from the record pattern. -/
def isWordDotDash (c : Char) : Bool := isPyWord c || c = '.' || c = '-'

/-- Regex `.` without `DOTALL`: any character except newline. -/
def isDotChar (c : Char) : Bool := c ≠ '\n'

/-- Python `str.strip()`: drop leading and trailing whitespace. -/
def pyStrip (l : List Char) : List Char :=
  ((l.dropWhile isPySpace).reverse.dropWhile isPySpace).reverse

/-- Python `str.strip()` lifted to `String` (the program also re-splits on `"\n"`
and strips each line; see `pageLines`). -/
def pyStripS (s : String) : String := ⟨pyStrip s.toList⟩

/-!
## A backtracking regular-expression engine

All repetitions in the program's single record pattern
`^\s*(\d{1,4})\s+(.+?)\s+(\d{9,12})\s+(S\s+[\w\.\-]+)` are over
single-character classes, so the AST needs only: a character class,
concatenation, capturing groups, and greedy/lazy bounded class repetition.
`runRE` returns *all* ways of matching a prefix of the input, in exactly
Python `re`'s backtracking priority order (greedy repeats longest-first,
lazy repeats shortest-first, earlier choice points outermost); the
engine's answer is the head of that list.  The pattern is anchored by `^`
and `re.IGNORECASE` is not set on it, so `re.search` can only match at
position 0 and `runRE` need not try later start positions.
-/

/-- Capture environment: group index ↦ captured characters. -/
def Caps : Type := Nat → List Char

def emptyCaps : Caps := fun _ => []

def setCap (caps : Caps) (i : Nat) (v : List Char) : Caps :=
  fun j => if j = i then v else caps j

/-- Regular-expression AST (just the constructs the program's pattern uses). -/
inductive RE : Type
  /-- single character from a class -/
  | cls (p : Char → Bool)
  /-- concatenation -/
  | cat (a b : RE)
  /-- capturing group `i` -/
  | grp (i : Nat) (r : RE)
  /-- greedy repetition of a class, `lo` to `hi` (`none` = unbounded) -/
  | repGreedy (p : Char → Bool) (lo : Nat) (hi : Option Nat)
  /-- lazy repetition of a class, `lo` to `hi` (`none` = unbounded) -/
  | repLazy (p : Char → Bool) (lo : Nat) (hi : Option Nat)

/-- Candidate repetition counts for a class repetition on input `s`:
all `k` with `lo ≤ k`, `k ≤ hi`, and the first `k` characters of `s`
in the class — in ascending order. -/
def repKs (p : Char → Bool) (lo : Nat) (hi : Option Nat) (s : List Char) : List Nat :=
  let maxRun := (s.takeWhile p).length
  let m := match hi with
    | none => maxRun
    | some h => min h maxRun
  if lo ≤ m then List.range' lo (m - lo + 1) else []

/-- All prefix matches of `r` against `s`, each as (captures, rest),
in Python backtracking priority order (first element = Python's match). -/
def runRE : RE → List Char → Caps → List (Caps × List Char)
  | .cls p, s, caps =>
    match s with
    | [] => []
    | c :: rest => if p c then [(caps, rest)] else []
  | .cat a b, s, caps =>
    (runRE a s caps).flatMap fun m => runRE b m.2 m.1
  | .grp i r, s, caps =>
    (runRE r s caps).map fun m =>
      (setCap m.1 i (s.take (s.length - m.2.length)), m.2)
  | .repGreedy p lo hi, s, caps =>
    (repKs p lo hi s).reverse.map fun k => (caps, s.drop k)
  | .repLazy p lo hi, s, caps =>
    (repKs p lo hi s).map fun k => (caps, s.drop k)

/-- Python `re.search` for an anchored pattern: the highest-priority match at
position 0, if any. -/
def reRun (r : RE) (s : List Char) : Option Caps :=
  match runRE r s emptyCaps with
  | [] => none
  | m :: _ => some m.1

/-!
## The record pattern (source line 37)

`^\s*(\d{1,4})\s+(.+?)\s+(\d{9,12})\s+(S\s+[\w\.\-]+)`
-/

/-- Group 4: `S\s+[\w\.\-]+`. -/
def precinctRE : RE :=
  .cat (.cls (fun c => c = 'S'))
    (.cat (.repGreedy isPySpace 1 none) (.repGreedy isWordDotDash 1 none))

/-- The full anchored record pattern. -/
def voterRE : RE :=
  .cat (.repGreedy isPySpace 0 none)
    (.cat (.grp 1 (.repGreedy isPyDigit 1 (some 4)))
      (.cat (.repGreedy isPySpace 1 none)
        (.cat (.grp 2 (.repLazy isDotChar 1 none))
          (.cat (.repGreedy isPySpace 1 none)
            (.cat (.grp 3 (.repGreedy isPyDigit 9 (some 12)))
              (.cat (.repGreedy isPySpace 1 none)
                (.grp 4 precinctRE)))))))

/-!
## The line classifier (source lines 21–46)
-/

/-- The parsed record. The Python function returns a dict with exactly
the four keys `"No"`, `"Name"`, `"State ID"`, `"Precinct"` (source lines
40–45); this structure has exactly those four fields, in that order. -/
structure VoterRecord : Type where
  no : String
  name : String
  stateId : String
  precinct : String
  deriving DecidableEq, Repr

/-- The header/metadata skip patterns (source lines 28–32). Each is a
literal anchored at `^`; with `re.IGNORECASE` and no `re.MULTILINE`,
`re.search` succeeds exactly when the keyword is a case-insensitive
prefix of the line. -/
def skipKeywords : List String :=
  ["No.", "Name", "State ID", "Precinct",
   "County Name", "Election Name", "Report",
   "From", "To", "ePulse", "Voter Check-in"]

def lowerList (l : List Char) : List Char := l.map Char.toLower

/-- Embeds `any(re.search(p, line, re.IGNORECASE) for p in skip_patterns)`. -/
def isSkipLine (l : List Char) : Bool :=
  skipKeywords.any fun k => (lowerList k.toList).isPrefixOf (lowerList l)

/-- Embeds `parse_voter_line` (source lines 21–46). -/
def parse_voter_line (line : String) : Option VoterRecord :=
  let l := pyStrip line.toList
  if l.isEmpty || l.length < 20 then none
  else if isSkipLine l then none
  else
    match reRun voterRE l with
    | none => none
    | some caps =>
      some { no := ⟨pyStrip (caps 1)⟩
             name := ⟨pyStrip (caps 2)⟩
             stateId := ⟨pyStrip (caps 3)⟩
             precinct := ⟨pyStrip (caps 4)⟩ }

/-!
## The document pipeline (source lines 49–102)

A document is modelled by what the program observes of it: whether the
path exists (`pdf_path.exists()`), and the outcome of
`pdfplumber.open` + per-page `extract_text` — either an exception
(caught by the `try`/`except` of lines 62–82) or a list of per-page
optional texts (`extract_text` may return `None`).
-/

structure PdfDoc : Type where
  /-- Models `pdf_path.exists()` (source line 51) -/
  present : Bool
  /-- result of opening and reading all pages (source lines 63–66):
  `.error msg` when an exception is raised, `.ok pages` otherwise -/
  extract : Except String (List (Option String))

/-- Python `text.split("\n")`: split at every newline, keeping empty
pieces (so `"".split("\n") == [""]` and `"a\n".split("\n") == ["a", ""]`). -/
def splitOnNl (l : List Char) : List (List Char) :=
  l.foldr
    (fun c acc =>
      match acc with
      | [] => [[]]
      | cur :: rest => if c = '\n' then [] :: cur :: rest else (c :: cur) :: rest)
    [[]]

/-- Embeds `[line.strip() for line in text.split("\n") if line.strip()]`
(source line 69). -/
def pageLines (text : String) : List String :=
  (((splitOnNl text.toList).map pyStrip).filter (fun l => l ≠ [])).map
    (fun l => ⟨l⟩)

/-- The lines contributed by one page: `if not text: continue`
(source lines 67–69) skips `None` and empty text. -/
def pageText : Option String → List String
  | none => []
  | some t => if t = "" then [] else pageLines t

/-- The accumulated record list of the page/line loop
(source lines 65–73), in page-then-line order. -/
def extractRecords (pages : List (Option String)) : List VoterRecord :=
  (pages.flatMap pageText).filterMap parse_voter_line

/-- Embeds `df.drop_duplicates(subset=["State ID"], keep="first")`
(source line 91): keep a row iff its `State ID` has not occurred in an
earlier row. `seen` accumulates the identifiers already kept. -/
def dedupAux : List String → List VoterRecord → List VoterRecord
  | _, [] => []
  | seen, r :: rest =>
    if r.stateId ∈ seen then dedupAux seen rest
    else r :: dedupAux (r.stateId :: seen) rest

def dedupByStateId (rs : List VoterRecord) : List VoterRecord := dedupAux [] rs

/-!
## CSV serialization (source line 98)

`df.to_csv(output_csv, index=False, encoding="utf-8")` writes a header
row (the column names `No`, `Name`, `State ID`, `Precinct`, in dict
insertion order) followed by one comma-separated row per record, with
minimal quoting: a field is quoted iff it contains the separator, the
quote character, or a line-break character; quote characters are
doubled inside quoted fields; every row ends with a line terminator.
-/

def needsQuote (f : List Char) : Bool :=
  f.any fun c => c = ',' || c = '"' || c = '\n' || c = '\r'

def escapeQuotes (f : List Char) : List Char :=
  f.flatMap fun c => if c = '"' then ['"', '"'] else [c]

def encodeField (f : List Char) : List Char :=
  if needsQuote f then '"' :: (escapeQuotes f ++ ['"']) else f

/-- Comma-separated concatenation of the encoded fields of one row. -/
def encodeRow : List (List Char) → List Char
  | [] => []
  | [f] => encodeField f
  | f :: g :: fs => encodeField f ++ ',' :: encodeRow (g :: fs)

def renderCsv (rows : List (List (List Char))) : List Char :=
  rows.flatMap fun r => encodeRow r ++ ['\n']

/-- The fixed column header (dict key order, source lines 40–45). -/
def csvHeader : List (List Char) :=
  ["No", "Name", "State ID", "Precinct"].map String.toList

def recFields (r : VoterRecord) : List (List Char) :=
  [r.no.toList, r.name.toList, r.stateId.toList, r.precinct.toList]

/-- The full CSV file contents written for a deduplicated record list. -/
def toCsvFile (rows : List VoterRecord) : List Char :=
  renderCsv (csvHeader :: rows.map recFields)

/-!
## Reading the CSV back

Modelled from the spec: the round-trip property ("reading the file back
yields the same header names, row order, values") refers to a standard
CSV reader, which is not part of the source; `parseCsv` is the standard
(RFC 4180-style) reader: fields separated by commas, rows terminated by
newline, quoted fields may contain separators/line breaks and represent
an embedded quote as a doubled quote.
-/

/-- Read the body of a quoted field (after the opening quote); returns
the field's characters and the input remaining after the closing quote. -/
def parseQuoted : List Char → Option (List Char × List Char)
  | [] => none
  | c :: t =>
    if c = '"' then
      match t with
      | [] => some ([], [])
      | c2 :: t2 =>
        if c2 = '"' then (parseQuoted t2).map fun m => ('"' :: m.1, m.2)
        else some ([], c2 :: t2)
    else (parseQuoted t).map fun m => (c :: m.1, m.2)

def notFieldEnd (c : Char) : Bool := !(c = ',' || c = '\n')

def parseField (s : List Char) : Option (List Char × List Char) :=
  match s with
  | [] => some ([], [])
  | c :: t =>
    if c = '"' then parseQuoted t
    else some (s.takeWhile notFieldEnd, s.dropWhile notFieldEnd)

/-- Read one row (fuelled; fuel bounds the number of fields). -/
def parseRowAux : Nat → List Char → Option (List (List Char) × List Char)
  | 0, _ => none
  | fuel + 1, s =>
    match parseField s with
    | none => none
    | some (f, rest) =>
      match rest with
      | [] => some ([f], [])
      | c :: t =>
        if c = ',' then (parseRowAux fuel t).map fun m => (f :: m.1, m.2)
        else if c = '\n' then some ([f], t)
        else none

/-- Read all rows (fuelled; fuel bounds the number of rows). -/
def parseRowsAux : Nat → List Char → Option (List (List (List Char)))
  | 0, _ => none
  | fuel + 1, s =>
    if s.isEmpty then some []
    else
      match parseRowAux (s.length + 1) s with
      | none => none
      | some (fs, rest) => (parseRowsAux fuel rest).map (fs :: ·)

def parseCsv (s : List Char) : Option (List (List (List Char))) :=
  parseRowsAux (s.length + 1) s

/-!
## `convert_single_pdf` and the bulk loop
-/

inductive ConvertOutcome : Type
  /-- Outcome `PDF not found` (source lines 51–54) -/
  | notFound
  /-- exception while opening/reading, caught at lines 79–82 -/
  | extractError (msg : String)
  /-- Outcome `No voter records found` (source lines 84–86) -/
  | noRecords
  /-- CSV written with the deduplicated rows (source lines 88–102) -/
  | success (rows : List VoterRecord)
  deriving DecidableEq, Repr

structure ConvertResult : Type where
  outcome : ConvertOutcome
  /-- contents of the output CSV file, when one is written -/
  written : Option (List Char)
  /-- the function's integer return value -/
  count : Nat
  deriving DecidableEq, Repr

/-- Embeds `convert_single_pdf` (source lines 49–102). -/
def convert_single_pdf (doc : PdfDoc) : ConvertResult :=
  if !doc.present then ⟨.notFound, none, 0⟩
  else
    match doc.extract with
    | .error e => ⟨.extractError e, none, 0⟩
    | .ok pages =>
      let records := extractRecords pages
      if records.isEmpty then ⟨.noRecords, none, 0⟩
      else
        let df := dedupByStateId records
        ⟨.success df, some (toCsvFile df), df.length⟩

/-- The bulk loop applies `convert_single_pdf` to every file in turn
(source lines 154–159); the per-document results, in order. -/
def bulkResults (docs : List PdfDoc) : List ConvertResult :=
  docs.map convert_single_pdf

/-- Performs one iteration of the bulk loop's accounting
(source lines 156–159): `records = convert_single_pdf(...)`, then
`if records > 0: success_count += 1; total_records += records`. -/
def bulkStep (acc : Nat × Nat) (doc : PdfDoc) : Nat × Nat :=
  let records := (convert_single_pdf doc).count
  if records > 0 then (acc.1 + 1, acc.2 + records) else acc

/-- Computes `(success_count, total_records)` of the bulk loop: a file counts as
successful iff its returned record count is `> 0` (source lines 152–159). -/
def bulkTotals (docs : List PdfDoc) : Nat × Nat :=
  docs.foldl bulkStep (0, 0)


/-!
## Helper lemmas: deduplication
-/

theorem dedupAux_mem {seen : List String} {rs : List VoterRecord} {r : VoterRecord}
    (h : r ∈ dedupAux seen rs) : r ∈ rs ∧ r.stateId ∉ seen := by
  induction rs generalizing seen with
  | nil => simp [dedupAux] at h
  | cons x rest ih =>
    by_cases hx : x.stateId ∈ seen
    · rw [dedupAux, if_pos hx] at h
      have := ih h
      exact ⟨List.mem_cons_of_mem _ this.1, this.2⟩
    · rw [dedupAux, if_neg hx] at h
      rcases List.mem_cons.mp h with rfl | h
      · exact ⟨List.mem_cons_self _ _, hx⟩
      · have := ih h
        exact ⟨List.mem_cons_of_mem _ this.1,
          fun hc => this.2 (List.mem_cons_of_mem _ hc)⟩

theorem dedupAux_sublist (seen : List String) (rs : List VoterRecord) :
    (dedupAux seen rs).Sublist rs := by
  induction rs generalizing seen with
  | nil => simp [dedupAux]
  | cons x rest ih =>
    by_cases hx : x.stateId ∈ seen
    · rw [dedupAux, if_pos hx]
      exact (ih seen).cons x
    · rw [dedupAux, if_neg hx]
      exact (ih _).cons₂ x

theorem dedupAux_find {seen : List String} {rs : List VoterRecord} {r : VoterRecord}
    (h : r ∈ dedupAux seen rs) :
    rs.find? (fun x => x.stateId == r.stateId) = some r := by
  induction rs generalizing seen with
  | nil => simp [dedupAux] at h
  | cons x rest ih =>
    by_cases hx : x.stateId ∈ seen
    · rw [dedupAux, if_pos hx] at h
      have hmem := dedupAux_mem h
      have hne : (x.stateId == r.stateId) = false := by
        simp only [beq_eq_false_iff_ne, ne_eq]
        intro he
        exact hmem.2 (he ▸ hx)
      simp only [List.find?, hne]
      exact ih h
    · rw [dedupAux, if_neg hx] at h
      rcases List.mem_cons.mp h with rfl | h
      · simp only [List.find?, beq_self_eq_true]
      · have hmem := dedupAux_mem h
        have hne : (x.stateId == r.stateId) = false := by
          simp only [beq_eq_false_iff_ne, ne_eq]
          intro he
          exact hmem.2 (by simp [← he])
        simp only [List.find?, hne]
        exact ih h

theorem dedupAux_pairwise (seen : List String) (rs : List VoterRecord) :
    (dedupAux seen rs).Pairwise (fun a b => a.stateId ≠ b.stateId) := by
  induction rs generalizing seen with
  | nil => simp [dedupAux]
  | cons x rest ih =>
    by_cases hx : x.stateId ∈ seen
    · rw [dedupAux, if_pos hx]
      exact ih seen
    · rw [dedupAux, if_neg hx]
      refine List.Pairwise.cons ?_ (ih _)
      intro b hb hEq
      exact (dedupAux_mem hb).2 (by simp [← hEq])

theorem dedupByStateId_ne_nil {rs : List VoterRecord} (h : rs ≠ []) :
    dedupByStateId rs ≠ [] := by
  cases rs with
  | nil => exact absurd rfl h
  | cons x rest => simp [dedupByStateId, dedupAux]

/-!
## Claim theorems C1–C5
-/

/-- C1 (corrected): the spec expects the classifier to treat
`"5  JANE DOE  987654321  CENTRAL LIBRARY  S PCT.2"` as a record with
name `"JANE DOE"` and a polling place `"CENTRAL LIBRARY"`.  The code's
single pattern (line 37) has no polling-place group: group 3 (the
identifier) must be followed, up to whitespace, directly by the
`S`-precinct group, so the polling-place text makes the whole match
fail and the classifier returns no mapping. -/
theorem polling_place_line_counterexample :
    parse_voter_line "5  JANE DOE  987654321  CENTRAL LIBRARY  S PCT.2" = none := by
  decide

/-- C1 (amended): on the polling-place example line the classifier
returns no match; the same line without the embedded polling place does
parse (name `"JANE DOE"`, precinct `"S PCT.2"`), showing the free text
between identifier and precinct is what defeats the pattern. -/
theorem polling_place_line_resolved :
    parse_voter_line "5  JANE DOE  987654321  CENTRAL LIBRARY  S PCT.2" = none ∧
    parse_voter_line "5  JANE DOE  987654321  S PCT.2" =
      some ⟨"5", "JANE DOE", "987654321", "S PCT.2"⟩ := by
  constructor
  · decide
  · decide

/-- C2 (counterexample): a line merely *containing* (case-insensitively)
the header keyword `"Report"` in the middle is not rejected — the skip
patterns are all `^`-anchored — and this line parses to a full record. -/
theorem header_substring_counterexample :
    (lowerList "Report".toList) <:+:
      (lowerList (pyStrip "12  REPORT SMITH  123456789  S PCT.4".toList)) ∧
    parse_voter_line "12  REPORT SMITH  123456789  S PCT.4" =
      some ⟨"12", "REPORT SMITH", "123456789", "S PCT.4"⟩ := by
  constructor
  · decide
  · decide

/-- C2 (amended): every skip pattern is a literal anchored at `^`, so a
line is rejected exactly when a header keyword is a case-insensitive
*prefix* of the (stripped) line — not when it appears anywhere in the
line.  Any line whose stripped form starts with a keyword yields no
match. -/
theorem header_prefix_rejected (line : String)
    (h : isSkipLine (pyStrip line.toList) = true) :
    parse_voter_line line = none := by
  unfold parse_voter_line
  dsimp only
  split
  · rfl
  · simp [h]

theorem header_prefix_rejected_witness :
    isSkipLine (pyStrip "County Name: Medina County".toList) = true ∧
    parse_voter_line "County Name: Medina County" = none :=
  ⟨by decide, header_prefix_rejected "County Name: Medina County" (by decide)⟩

/-- C3: the canonical record line parses to exactly the claimed mapping
(sequence `"12"`, name `"JOHN SMITH"`, identifier `"123456789"`,
precinct `"S PCT.4"`); the returned structure has no polling-place
field at all (the `VoterRecord` type has exactly the four fields the
dict literal at lines 40–45 produces). -/
theorem standard_line_parsed :
    parse_voter_line "12  JOHN SMITH  123456789  S PCT.4" =
      some ⟨"12", "JOHN SMITH", "123456789", "S PCT.4"⟩ := by
  decide

/-- C4: any line whose stripped form is shorter than 20 characters is
rejected by the length guard at lines 24–25. -/
theorem short_line_rejected (line : String)
    (h : (pyStrip line.toList).length < 20) :
    parse_voter_line line = none := by
  unfold parse_voter_line
  dsimp only
  split
  · rfl
  · next hcond =>
    exfalso
    simp only [Bool.or_eq_true, decide_eq_true_eq, not_or] at hcond
    exact hcond.2 h

theorem short_line_rejected_witness :
    (pyStrip "1 J S 123456789 S".toList).length < 20 ∧
    parse_voter_line "1 J S 123456789 S" = none :=
  ⟨by decide, short_line_rejected "1 J S 123456789 S" (by decide)⟩

/-- C5: for a readable document, the rows written to the CSV are the
result of first-occurrence deduplication by `State ID` of the records
accumulated in page-then-line order: no two written rows share an
identifier, every written row is literally the *first* record of the
accumulated list bearing its identifier (later duplicates are dropped
whole, not merged), and the written rows form an order-preserving
sublist of the accumulated records. -/
theorem dedup_first_occurrence_wins (doc : PdfDoc) (pages : List (Option String))
    (hp : doc.present = true) (he : doc.extract = .ok pages)
    (hne : extractRecords pages ≠ []) :
    convert_single_pdf doc =
      ⟨.success (dedupByStateId (extractRecords pages)),
       some (toCsvFile (dedupByStateId (extractRecords pages))),
       (dedupByStateId (extractRecords pages)).length⟩ ∧
    (dedupByStateId (extractRecords pages)).Pairwise
      (fun a b => a.stateId ≠ b.stateId) ∧
    (∀ r ∈ dedupByStateId (extractRecords pages),
      (extractRecords pages).find? (fun x => x.stateId == r.stateId) = some r) ∧
    (dedupByStateId (extractRecords pages)).Sublist (extractRecords pages) := by
  refine ⟨?_, dedupAux_pairwise [] _, fun r hr => dedupAux_find hr,
    dedupAux_sublist [] _⟩
  simp [convert_single_pdf, hp, he, hne]

theorem dedup_first_occurrence_wins_witness :
    convert_single_pdf
        ⟨true, .ok [some "12  JOHN SMITH  123456789  S PCT.4\n99  DUP GUY  123456789  S PCT.9"]⟩ =
      ⟨.success [⟨"12", "JOHN SMITH", "123456789", "S PCT.4"⟩],
       some (toCsvFile [⟨"12", "JOHN SMITH", "123456789", "S PCT.4"⟩]),
       1⟩ := by
  have h := dedup_first_occurrence_wins
    ⟨true, .ok [some "12  JOHN SMITH  123456789  S PCT.4\n99  DUP GUY  123456789  S PCT.9"]⟩
    [some "12  JOHN SMITH  123456789  S PCT.4\n99  DUP GUY  123456789  S PCT.9"]
    rfl rfl (by decide)
  exact h.1.trans (by decide)

/-!
## Claim theorems C6, C7, C10
-/

/-- C6: a document that opens and reads fine but in which no line
parses as a record yields the distinct `noRecords` outcome: returned
count 0, no output file written; `noRecords` is a different outcome
from `notFound` and from every `extractError`. -/
theorem no_records_zero_no_output (doc : PdfDoc) (pages : List (Option String))
    (hp : doc.present = true) (he : doc.extract = .ok pages)
    (hnone : ∀ line ∈ pages.flatMap pageText, parse_voter_line line = none) :
    convert_single_pdf doc = ⟨.noRecords, none, 0⟩ ∧
    ConvertOutcome.noRecords ≠ ConvertOutcome.notFound ∧
    (∀ msg, ConvertOutcome.noRecords ≠ ConvertOutcome.extractError msg) := by
  have hrec : extractRecords pages = [] := by
    simp only [extractRecords, List.filterMap_eq_nil_iff]
    exact hnone
  refine ⟨?_, by simp, by simp⟩
  simp [convert_single_pdf, hp, he, hrec]

theorem no_records_zero_no_output_witness :
    convert_single_pdf ⟨true, .ok [some "Voter Check-in Report", some "page 1 of 2", none]⟩ =
      ⟨.noRecords, none, 0⟩ :=
  (no_records_zero_no_output
    ⟨true, .ok [some "Voter Check-in Report", some "page 1 of 2", none]⟩
    [some "Voter Check-in Report", some "page 1 of 2", none]
    rfl rfl (by decide)).1

/-- C7: a present document whose open/read raises is contained by the
`try`/`except` of lines 62–82: `convert_single_pdf` returns the error
outcome with count 0 and writes nothing, so (the conversion being a
total function into `ConvertResult`) no exception reaches the batch
loop — with the failing document inserted anywhere in a batch, every
other document is still processed with the same result, and the batch
totals are exactly those of the batch without the failing document. -/
theorem extract_failure_contained (bad : PdfDoc) (msg : String)
    (hp : bad.present = true) (he : bad.extract = .error msg) :
    convert_single_pdf bad = ⟨.extractError msg, none, 0⟩ ∧
    (∀ pre post : List PdfDoc,
      bulkResults (pre ++ bad :: post) =
        bulkResults pre ++ ⟨.extractError msg, none, 0⟩ :: bulkResults post) ∧
    (∀ pre post : List PdfDoc,
      bulkTotals (pre ++ bad :: post) = bulkTotals (pre ++ post)) := by
  have hbad : convert_single_pdf bad = ⟨.extractError msg, none, 0⟩ := by
    simp [convert_single_pdf, hp, he]
  refine ⟨hbad, ?_, ?_⟩
  · intro pre post
    simp [bulkResults, hbad]
  · intro pre post
    have hstep : ∀ acc : Nat × Nat, bulkStep acc bad = acc := by
      intro acc
      simp [bulkStep, hbad]
    simp only [bulkTotals, List.foldl_append, List.foldl_cons, hstep]

theorem extract_failure_contained_witness :
    convert_single_pdf ⟨true, .error "damaged xref table"⟩ =
      ⟨.extractError "damaged xref table", none, 0⟩ ∧
    bulkResults [⟨true, .error "damaged xref table"⟩] =
      [⟨.extractError "damaged xref table", none, 0⟩] ∧
    bulkTotals [⟨true, .error "damaged xref table"⟩] = bulkTotals [] := by
  have h := extract_failure_contained ⟨true, .error "damaged xref table"⟩
    "damaged xref table" rfl rfl
  exact ⟨h.1, by simpa using h.2.1 [] [], by simpa using h.2.2 [] []⟩

/-- Helper for C10: the `success_count` component of the bulk fold
counts exactly the documents whose conversion returned a positive
record count. -/
theorem bulkTotals_fst (docs : List PdfDoc) (init : Nat × Nat) :
    (docs.foldl bulkStep init).1 =
      init.1 + (docs.filter fun d => 0 < (convert_single_pdf d).count).length := by
  induction docs generalizing init with
  | nil => simp
  | cons d rest ih =>
    by_cases hd : 0 < (convert_single_pdf d).count
    · simp only [List.foldl_cons, List.filter_cons, bulkStep, hd, if_true,
        decide_true_eq_true]
      rw [ih]
      simp [hd]
      omega
    · simp only [List.foldl_cons, List.filter_cons, bulkStep]
      rw [if_neg hd, ih]
      simp [hd]

/-- C10: the returned count is 0 exactly in the three non-success
outcomes (file missing, extraction failure, no records), so the return
value alone cannot tell a failed document from an empty one; and the
bulk loop's `success_count` counts exactly the files whose returned
count is positive. -/
theorem zero_count_ambiguity :
    (∀ doc : PdfDoc,
      ((convert_single_pdf doc).count = 0 ↔
        ((convert_single_pdf doc).outcome = ConvertOutcome.notFound ∨
         (∃ msg, (convert_single_pdf doc).outcome = ConvertOutcome.extractError msg) ∨
         (convert_single_pdf doc).outcome = ConvertOutcome.noRecords))) ∧
    (∀ docs : List PdfDoc,
      (bulkTotals docs).1 =
        (docs.filter fun d => 0 < (convert_single_pdf d).count).length) := by
  constructor
  · intro doc
    by_cases hp : doc.present = true
    · cases he : doc.extract with
      | error msg => simp [convert_single_pdf, hp, he]
      | ok pages =>
        by_cases hrec : (extractRecords pages).isEmpty
        · simp [convert_single_pdf, hp, he, hrec]
        · have hne : extractRecords pages ≠ [] := by
            simpa [List.isEmpty_iff] using hrec
          have hdne : dedupByStateId (extractRecords pages) ≠ [] :=
            dedupByStateId_ne_nil hne
          simp [convert_single_pdf, hp, he, hrec, List.length_eq_zero, hdne]
    · have hp' : doc.present = false := by
        simpa using hp
      simp [convert_single_pdf, hp']
  · intro docs
    simpa using bulkTotals_fst docs (0, 0)

/-!
## Helper lemmas: CSV round-trip
-/

theorem escapeQuotes_nil : escapeQuotes [] = [] := rfl

theorem escapeQuotes_cons (c : Char) (f : List Char) :
    escapeQuotes (c :: f) =
      (if c = '"' then ['"', '"'] else [c]) ++ escapeQuotes f := rfl

theorem parseQuoted_cons_of_ne (c : Char) (t : List Char) (hc : ¬(c = '"')) :
    parseQuoted (c :: t) = (parseQuoted t).map fun m => (c :: m.1, m.2) := by
  cases t with
  | nil => simp [parseQuoted, hc]
  | cons c2 t2 => simp [parseQuoted, hc]

theorem parseQuoted_escape (f rest : List Char) (hrest : rest.head? ≠ some '"') :
    parseQuoted (escapeQuotes f ++ '"' :: rest) = some (f, rest) := by
  induction f with
  | nil =>
    cases rest with
    | nil => simp [escapeQuotes_nil, parseQuoted]
    | cons c t =>
      have hc : ¬(c = '"') := by simpa using hrest
      simp [escapeQuotes_nil, parseQuoted, hc]
  | cons c f ih =>
    rw [escapeQuotes_cons]
    by_cases hc : c = '"'
    · subst hc
      simp only [if_pos rfl, List.cons_append, List.nil_append]
      simp [parseQuoted, ih]
    · simp only [if_neg hc, List.cons_append, List.nil_append]
      rw [parseQuoted_cons_of_ne c _ hc, ih]
      rfl

theorem takeWhile_dropWhile_append {p : Char → Bool} (f rest : List Char)
    (hf : ∀ c ∈ f, p c = true) :
    (f ++ rest).takeWhile p = f ++ rest.takeWhile p ∧
    (f ++ rest).dropWhile p = rest.dropWhile p := by
  induction f with
  | nil => simp
  | cons c f ih =>
    have hc : p c = true := hf c (List.mem_cons_self _ _)
    have hrec := ih fun x hx => hf x (List.mem_cons_of_mem _ hx)
    simp [List.takeWhile_cons, List.dropWhile_cons, hc, hrec.1, hrec.2]

theorem parseField_unquoted (f rest : List Char)
    (hf : needsQuote f = false)
    (hrest : rest = [] ∨ rest.head? = some ',' ∨ rest.head? = some '\n') :
    parseField (f ++ rest) = some (f, rest) := by
  have hall : ∀ c ∈ f, (c = ',' || c = '"' || c = '\n' || c = '\r') = false := by
    intro c hc
    by_contra hne
    rw [Bool.not_eq_false] at hne
    have hq : needsQuote f = true := List.any_eq_true.mpr ⟨c, hc, hne⟩
    rw [hf] at hq
    simp at hq
  have hnfe : ∀ c ∈ f, notFieldEnd c = true := by
    intro c hc
    have h := hall c hc
    simp only [Bool.or_eq_false_iff, decide_eq_false_iff_not] at h
    simp [notFieldEnd, h.1.1.1, h.1.2]
  have hstop : rest.takeWhile notFieldEnd = [] ∧ rest.dropWhile notFieldEnd = rest := by
    rcases hrest with rfl | h | h
    · simp
    · cases rest with
      | nil => simp at h
      | cons c t =>
        have hc : c = ',' := by simpa using h
        subst hc
        constructor
        · simp [List.takeWhile_cons, notFieldEnd]
        · simp [List.dropWhile_cons, notFieldEnd]
    · cases rest with
      | nil => simp at h
      | cons c t =>
        have hc : c = '\n' := by simpa using h
        subst hc
        constructor
        · simp [List.takeWhile_cons, notFieldEnd]
        · simp [List.dropWhile_cons, notFieldEnd]
  cases f with
  | nil =>
    rcases hrest with rfl | h | h
    · simp [parseField]
    · cases rest with
      | nil => simp at h
      | cons c t =>
        have hc : c = ',' := by simpa using h
        subst hc
        simp [parseField, hstop.1, hstop.2]
    · cases rest with
      | nil => simp at h
      | cons c t =>
        have hc : c = '\n' := by simpa using h
        subst hc
        simp [parseField, hstop.1, hstop.2]
  | cons c f =>
    have hcq : ¬(c = '"') := by
      have h := hall c (List.mem_cons_self _ _)
      simp only [Bool.or_eq_false_iff, decide_eq_false_iff_not] at h
      exact h.1.1.2
    have htk := takeWhile_dropWhile_append (c :: f) rest hnfe
    simp only [List.cons_append, parseField, if_neg hcq]
    rw [← List.cons_append, htk.1, htk.2, hstop.1, hstop.2]
    simp

theorem parseField_encode (f rest : List Char)
    (hrest : rest = [] ∨ rest.head? = some ',' ∨ rest.head? = some '\n') :
    parseField (encodeField f ++ rest) = some (f, rest) := by
  by_cases hq : needsQuote f = true
  · have hr : rest.head? ≠ some '"' := by
      rcases hrest with rfl | h | h
      · simp
      · rw [h]
        simp
      · rw [h]
        simp
    simp only [encodeField, hq, if_true, List.cons_append, List.append_assoc,
      List.singleton_append]
    simpa [parseField] using parseQuoted_escape f rest hr
  · have hq' : needsQuote f = false := by simpa using hq
    simp only [encodeField, hq', Bool.false_eq_true, if_false]
    exact parseField_unquoted f rest hq' hrest

theorem parseRowAux_encode (fs : List (List Char)) :
    ∀ (fuel : Nat) (rest : List Char), fs.length ≤ fuel → fs ≠ [] →
      parseRowAux fuel (encodeRow fs ++ '\n' :: rest) = some (fs, rest) := by
  induction fs with
  | nil =>
    intro fuel rest _ hne
    exact absurd rfl hne
  | cons f fs ih =>
    intro fuel rest hfuel _
    cases fuel with
    | zero => simp at hfuel
    | succ fuel =>
      cases fs with
      | nil =>
        have hpf := parseField_encode f ('\n' :: rest) (Or.inr (Or.inr rfl))
        rw [encodeRow, parseRowAux, hpf]
        simp
      | cons g fs2 =>
        have hpf := parseField_encode f
          (',' :: (encodeRow (g :: fs2) ++ '\n' :: rest)) (Or.inr (Or.inl rfl))
        have ihr := ih fuel rest (by simpa using Nat.le_of_succ_le_succ hfuel)
          (by simp)
        rw [encodeRow, List.append_assoc, List.cons_append, parseRowAux, hpf]
        simp [ihr]

theorem renderCsv_cons (r : List (List Char)) (rest : List (List (List Char))) :
    renderCsv (r :: rest) = encodeRow r ++ '\n' :: renderCsv rest := by
  simp [renderCsv]

theorem encodeRow_length (fs : List (List Char)) :
    fs.length ≤ (encodeRow fs).length + 1 := by
  induction fs with
  | nil => simp [encodeRow]
  | cons f fs ih =>
    cases fs with
    | nil => simp [encodeRow]
    | cons g fs2 =>
      rw [encodeRow]
      simp only [List.length_cons, List.length_append] at *
      omega

theorem renderCsv_length (rows : List (List (List Char))) :
    rows.length ≤ (renderCsv rows).length := by
  induction rows with
  | nil => simp [renderCsv]
  | cons r rest ih =>
    rw [renderCsv_cons]
    simp only [List.length_cons, List.length_append] at *
    omega

theorem parseRowsAux_render (rows : List (List (List Char))) :
    ∀ fuel, rows.length < fuel → (∀ r ∈ rows, r ≠ []) →
      parseRowsAux fuel (renderCsv rows) = some rows := by
  induction rows with
  | nil =>
    intro fuel hf _
    cases fuel with
    | zero => omega
    | succ fuel => simp [renderCsv, parseRowsAux]
  | cons r rest ih =>
    intro fuel hf hne
    cases fuel with
    | zero => omega
    | succ fuel =>
      rw [renderCsv_cons]
      have hbound :
          r.length ≤ (encodeRow r ++ '\n' :: renderCsv rest).length + 1 := by
        have h1 := encodeRow_length r
        simp only [List.length_append, List.length_cons]
        omega
      have hrow := parseRowAux_encode r
        ((encodeRow r ++ '\n' :: renderCsv rest).length + 1) (renderCsv rest)
        hbound (hne r (List.mem_cons_self _ _))
      have hnonempty : (encodeRow r ++ '\n' :: renderCsv rest).isEmpty = false := by
        cases hE : encodeRow r with
        | nil => simp [hE]
        | cons a b => simp [hE]
      have hrest := ih fuel (by simpa using Nat.lt_of_succ_lt_succ hf)
        (fun x hx => hne x (List.mem_cons_of_mem _ hx))
      rw [parseRowsAux, hnonempty]
      simp only [Bool.false_eq_true, if_false]
      rw [hrow]
      simp [hrest]

theorem parseCsv_render (rows : List (List (List Char)))
    (h : ∀ r ∈ rows, r ≠ []) :
    parseCsv (renderCsv rows) = some rows := by
  have hlen := renderCsv_length rows
  exact parseRowsAux_render rows ((renderCsv rows).length + 1) (by omega) h

/-- C8: reading the written CSV file back yields exactly what was
written: the fixed header (`No`, `Name`, `State ID`, `Precinct`)
followed by the rows in their written order with their exact field
values.  The writer is the minimal-quoting serialization of
`df.to_csv(..., index=False)` (fields containing separator, quote or
line-break characters are quoted, inner quotes doubled); the reader is
the standard CSV reader, so the round trip holds for every record
list, including fields containing commas or quotes. -/
theorem csv_round_trip (rows : List VoterRecord) :
    parseCsv (toCsvFile rows) = some (csvHeader :: rows.map recFields) := by
  unfold toCsvFile
  apply parseCsv_render
  intro r hr
  rcases List.mem_cons.mp hr with rfl | hr
  · simp [csvHeader]
  · obtain ⟨v, _, rfl⟩ := List.mem_map.mp hr
    simp [recFields]

/-!
## Helper lemmas: the regex engine and `pyStrip`
-/

theorem mem_runRE_cls {p : Char → Bool} {s : List Char} {caps : Caps}
    {m : Caps × List Char} (h : m ∈ runRE (.cls p) s caps) :
    ∃ c t, s = c :: t ∧ p c = true ∧ m = (caps, t) := by
  cases s with
  | nil => simp [runRE] at h
  | cons c t =>
    by_cases hc : p c = true
    · simp only [runRE, hc, if_true, List.mem_singleton] at h
      exact ⟨c, t, rfl, hc, h⟩
    · simp [runRE, hc] at h

theorem mem_runRE_cat {a b : RE} {s : List Char} {caps : Caps}
    {m : Caps × List Char} :
    m ∈ runRE (.cat a b) s caps ↔
      ∃ m1, m1 ∈ runRE a s caps ∧ m ∈ runRE b m1.2 m1.1 := by
  simp [runRE, List.mem_flatMap]

theorem mem_runRE_grp {i : Nat} {r : RE} {s : List Char} {caps : Caps}
    {m : Caps × List Char} (h : m ∈ runRE (.grp i r) s caps) :
    ∃ m1, m1 ∈ runRE r s caps ∧
      m = (setCap m1.1 i (s.take (s.length - m1.2.length)), m1.2) := by
  simp only [runRE, List.mem_map] at h
  obtain ⟨m1, hm1, he⟩ := h
  exact ⟨m1, hm1, he.symm⟩

theorem mem_repKs {p : Char → Bool} {lo : Nat} {hi : Option Nat} {s : List Char}
    {k : Nat} (h : k ∈ repKs p lo hi s) :
    lo ≤ k ∧ k ≤ (s.takeWhile p).length ∧ (∀ n, hi = some n → k ≤ n) := by
  unfold repKs at h
  cases hi with
  | none =>
    dsimp only at h
    by_cases hlo : lo ≤ (s.takeWhile p).length
    · rw [if_pos hlo, List.mem_range'_1] at h
      exact ⟨h.1, by omega, fun n hn => by cases hn⟩
    · rw [if_neg hlo] at h
      simp at h
  | some n =>
    dsimp only at h
    have hm1 : min n (s.takeWhile p).length ≤ n := Nat.min_le_left _ _
    have hm2 : min n (s.takeWhile p).length ≤ (s.takeWhile p).length :=
      Nat.min_le_right _ _
    by_cases hlo : lo ≤ min n (s.takeWhile p).length
    · rw [if_pos hlo, List.mem_range'_1] at h
      refine ⟨h.1, by omega, fun n2 hn => ?_⟩
      cases hn
      omega
    · rw [if_neg hlo] at h
      simp at h

theorem mem_runRE_repGreedy {p : Char → Bool} {lo : Nat} {hi : Option Nat}
    {s : List Char} {caps : Caps} {m : Caps × List Char}
    (h : m ∈ runRE (.repGreedy p lo hi) s caps) :
    ∃ k, k ∈ repKs p lo hi s ∧ m = (caps, s.drop k) := by
  simp only [runRE, List.mem_map, List.mem_reverse] at h
  obtain ⟨k, hk, he⟩ := h
  exact ⟨k, hk, he.symm⟩

theorem mem_runRE_repLazy {p : Char → Bool} {lo : Nat} {hi : Option Nat}
    {s : List Char} {caps : Caps} {m : Caps × List Char}
    (h : m ∈ runRE (.repLazy p lo hi) s caps) :
    ∃ k, k ∈ repKs p lo hi s ∧ m = (caps, s.drop k) := by
  simp only [runRE, List.mem_map] at h
  obtain ⟨k, hk, he⟩ := h
  exact ⟨k, hk, he.symm⟩

theorem takeWhile_length_le (p : Char → Bool) (s : List Char) :
    (s.takeWhile p).length ≤ s.length :=
  (List.takeWhile_prefix p).length_le

theorem take_of_le_takeWhile {p : Char → Bool} (s : List Char) (k : Nat)
    (h : k ≤ (s.takeWhile p).length) :
    s.take k = (s.takeWhile p).take k := by
  conv_lhs => rw [← List.takeWhile_append_dropWhile p s]
  rw [List.take_append_eq_append_take, Nat.sub_eq_zero_of_le h, List.take_zero,
    List.append_nil]

theorem all_take_of_le_takeWhile {p : Char → Bool} {s : List Char} {k : Nat}
    (h : k ≤ (s.takeWhile p).length) :
    ∀ c ∈ s.take k, p c = true := by
  intro c hc
  rw [take_of_le_takeWhile s k h] at hc
  exact List.mem_takeWhile_imp (List.take_subset _ _ hc)

theorem runRE_rest_drop {r : RE} : ∀ {s : List Char} {caps : Caps}
    {m : Caps × List Char}, m ∈ runRE r s caps →
    ∃ k, k ≤ s.length ∧ m.2 = s.drop k := by
  induction r with
  | cls p =>
    intro s caps m h
    obtain ⟨c, t, rfl, hc, rfl⟩ := mem_runRE_cls h
    exact ⟨1, by simp, rfl⟩
  | cat a b iha ihb =>
    intro s caps m h
    obtain ⟨m1, h1, h2⟩ := mem_runRE_cat.mp h
    obtain ⟨k1, hk1, he1⟩ := iha h1
    obtain ⟨k2, hk2, he2⟩ := ihb h2
    rw [he1] at he2 hk2
    rw [List.length_drop] at hk2
    refine ⟨k2 + k1, by omega, ?_⟩
    rw [he2, List.drop_drop, Nat.add_comm]
  | grp i r ihr =>
    intro s caps m h
    obtain ⟨m1, h1, rfl⟩ := mem_runRE_grp h
    obtain ⟨k, hk, he⟩ := ihr h1
    exact ⟨k, hk, he⟩
  | repGreedy p lo hi =>
    intro s caps m h
    obtain ⟨k, hk, rfl⟩ := mem_runRE_repGreedy h
    exact ⟨k, le_trans (mem_repKs hk).2.1 (takeWhile_length_le p s), rfl⟩
  | repLazy p lo hi =>
    intro s caps m h
    obtain ⟨k, hk, rfl⟩ := mem_runRE_repLazy h
    exact ⟨k, le_trans (mem_repKs hk).2.1 (takeWhile_length_le p s), rfl⟩

theorem length_sub_drop (s : List Char) (k : Nat) (h : k ≤ s.length) :
    s.length - (s.drop k).length = k := by
  rw [List.length_drop]
  omega

theorem digit_not_space {c : Char} (h : isPyDigit c = true) : isPySpace c = false := by
  simp only [isPyDigit, Bool.and_eq_true, decide_eq_true_eq] at h
  simp only [isPySpace, Bool.or_eq_false_iff, decide_eq_false_iff_not]
  refine ⟨⟨⟨⟨⟨?_, ?_⟩, ?_⟩, ?_⟩, ?_⟩, ?_⟩ <;> rintro rfl <;> revert h <;> decide

theorem dropWhile_of_all_false (p : Char → Bool) (l : List Char)
    (h : ∀ c ∈ l, p c = false) : l.dropWhile p = l := by
  cases l with
  | nil => rfl
  | cons c t =>
    rw [List.dropWhile_cons, h c (List.mem_cons_self _ _)]
    simp

theorem pyStrip_of_no_space {l : List Char} (h : ∀ c ∈ l, isPySpace c = false) :
    pyStrip l = l := by
  unfold pyStrip
  rw [dropWhile_of_all_false _ _ h,
    dropWhile_of_all_false _ _ (fun c hc => h c (List.mem_reverse.mp hc)),
    List.reverse_reverse]

theorem dropWhile_append_singleton {p : Char → Bool} (l : List Char) (c : Char)
    (hc : p c = false) :
    (l ++ [c]).dropWhile p = l.dropWhile p ++ [c] := by
  induction l with
  | nil => simp [List.dropWhile_cons, hc]
  | cons a t ih =>
    by_cases ha : p a = true
    · simp only [List.cons_append, List.dropWhile_cons, ha, if_true]
      exact ih
    · rw [Bool.not_eq_true] at ha
      simp [List.dropWhile_cons, ha]

theorem pyStrip_head {c : Char} (t : List Char) (h : isPySpace c = false) :
    (pyStrip (c :: t)).head? = some c := by
  unfold pyStrip
  rw [List.dropWhile_cons, h]
  simp only [Bool.false_eq_true, if_false]
  rw [List.reverse_cons, dropWhile_append_singleton _ _ h, List.reverse_append]
  simp

theorem grp_repGreedy_spec {i lo : Nat} {hi : Option Nat} {p : Char → Bool}
    {s : List Char} {caps : Caps} {m : Caps × List Char}
    (h : m ∈ runRE (.grp i (.repGreedy p lo hi)) s caps) :
    ∃ k, lo ≤ k ∧ k ≤ (s.takeWhile p).length ∧ (∀ n, hi = some n → k ≤ n) ∧
      m = (setCap caps i (s.take k), s.drop k) := by
  obtain ⟨m1, h1, rfl⟩ := mem_runRE_grp h
  obtain ⟨k, hk, rfl⟩ := mem_runRE_repGreedy h1
  have hb := mem_repKs hk
  have hlen : k ≤ s.length := le_trans hb.2.1 (takeWhile_length_le p s)
  refine ⟨k, hb.1, hb.2.1, hb.2.2, ?_⟩
  rw [length_sub_drop s k hlen]

theorem grp_repLazy_spec {i lo : Nat} {hi : Option Nat} {p : Char → Bool}
    {s : List Char} {caps : Caps} {m : Caps × List Char}
    (h : m ∈ runRE (.grp i (.repLazy p lo hi)) s caps) :
    ∃ k, lo ≤ k ∧ k ≤ (s.takeWhile p).length ∧ (∀ n, hi = some n → k ≤ n) ∧
      m = (setCap caps i (s.take k), s.drop k) := by
  obtain ⟨m1, h1, rfl⟩ := mem_runRE_grp h
  obtain ⟨k, hk, rfl⟩ := mem_runRE_repLazy h1
  have hb := mem_repKs hk
  have hlen : k ≤ s.length := le_trans hb.2.1 (takeWhile_length_le p s)
  refine ⟨k, hb.1, hb.2.1, hb.2.2, ?_⟩
  rw [length_sub_drop s k hlen]

theorem grp_precinct_spec {s : List Char} {caps : Caps} {m : Caps × List Char}
    (h : m ∈ runRE (.grp 4 precinctRE) s caps) :
    ∃ w rest, m = (setCap caps 4 ('S' :: w), rest) := by
  obtain ⟨m1, h1, rfl⟩ := mem_runRE_grp h
  unfold precinctRE at h1
  obtain ⟨mc, hcS, hrest⟩ := mem_runRE_cat.mp h1
  obtain ⟨c, t, rfl, hcEq, rfl⟩ := mem_runRE_cls hcS
  have hc : c = 'S' := by simpa using hcEq
  subst hc
  obtain ⟨w1, hw1, hw2⟩ := mem_runRE_cat.mp hrest
  obtain ⟨kw, hkw, rfl⟩ := mem_runRE_repGreedy hw1
  obtain ⟨kx, hkx, rfl⟩ := mem_runRE_repGreedy hw2
  have hkw1 : kw ≤ t.length :=
    le_trans (mem_repKs hkw).2.1 (takeWhile_length_le _ _)
  have hkx1 : kx ≤ (t.drop kw).length :=
    le_trans (mem_repKs hkx).2.1 (takeWhile_length_le _ _)
  rw [List.length_drop] at hkx1
  have hlen : ('S' :: t).length - ((t.drop kw).drop kx).length = kw + kx + 1 := by
    rw [List.drop_drop, List.length_drop, List.length_cons]
    omega
  refine ⟨t.take (kw + kx), (t.drop kw).drop kx, ?_⟩
  dsimp only
  rw [hlen, List.take_succ_cons]

theorem string_mk_length (x : List Char) : (⟨x⟩ : String).length = x.length := rfl

theorem string_mk_toList (x : List Char) : (⟨x⟩ : String).toList = x := rfl

/-- C9: whatever line is fed in, a returned mapping always has the shape
fixed by the pattern and the dict literal at source lines 40–45: the
record type has exactly the four fields `No`, `Name`, `State ID`,
`Precinct` (by construction of `VoterRecord`), the `No` value is a
string of 1–4 digits, the `State ID` value is a string of 9–12 digits,
and the `Precinct` value begins with the literal marker `S`. -/
theorem classifier_shape_invariant (line : String) (r : VoterRecord)
    (h : parse_voter_line line = some r) :
    (1 ≤ r.no.length ∧ r.no.length ≤ 4 ∧
      (∀ c ∈ r.no.toList, isPyDigit c = true)) ∧
    (9 ≤ r.stateId.length ∧ r.stateId.length ≤ 12 ∧
      (∀ c ∈ r.stateId.toList, isPyDigit c = true)) ∧
    r.precinct.toList.head? = some 'S' := by
  unfold parse_voter_line at h
  dsimp only at h
  by_cases h1 : ((pyStrip line.toList).isEmpty ||
      decide ((pyStrip line.toList).length < 20)) = true
  · rw [if_pos h1] at h
    exact absurd h (by simp)
  · rw [if_neg h1] at h
    by_cases h2 : isSkipLine (pyStrip line.toList) = true
    · rw [if_pos h2] at h
      exact absurd h (by simp)
    · rw [if_neg h2] at h
      cases hrun : reRun voterRE (pyStrip line.toList) with
      | none =>
        rw [hrun] at h
        exact absurd h (by simp)
      | some caps =>
        rw [hrun] at h
        injection h with h
        subst h
        unfold reRun at hrun
        cases hr0 : runRE voterRE (pyStrip line.toList) emptyCaps with
        | nil =>
          rw [hr0] at hrun
          exact absurd hrun (by simp)
        | cons m ms =>
          rw [hr0] at hrun
          injection hrun with hcaps
          have hm : m ∈ runRE voterRE (pyStrip line.toList) emptyCaps := by
            rw [hr0]
            exact List.mem_cons_self _ _
          unfold voterRE at hm
          obtain ⟨m0, hws0, hm⟩ := mem_runRE_cat.mp hm
          obtain ⟨k0, hk0, rfl⟩ := mem_runRE_repGreedy hws0
          obtain ⟨m1, hg1, hm⟩ := mem_runRE_cat.mp hm
          obtain ⟨k1, hk1a, hk1b, hk1c, rfl⟩ := grp_repGreedy_spec hg1
          obtain ⟨m2, hws1, hm⟩ := mem_runRE_cat.mp hm
          obtain ⟨k2, hk2, rfl⟩ := mem_runRE_repGreedy hws1
          obtain ⟨m3, hg2, hm⟩ := mem_runRE_cat.mp hm
          obtain ⟨k3, hk3a, hk3b, hk3c, rfl⟩ := grp_repLazy_spec hg2
          obtain ⟨m4, hws2, hm⟩ := mem_runRE_cat.mp hm
          obtain ⟨k4, hk4, rfl⟩ := mem_runRE_repGreedy hws2
          obtain ⟨m5, hg3, hm⟩ := mem_runRE_cat.mp hm
          obtain ⟨k5, hk5a, hk5b, hk5c, rfl⟩ := grp_repGreedy_spec hg3
          obtain ⟨m6, hws3, hm⟩ := mem_runRE_cat.mp hm
          obtain ⟨k6, hk6, rfl⟩ := mem_runRE_repGreedy hws3
          obtain ⟨w, rest4, hmeq⟩ := grp_precinct_spec hm
          rw [hmeq] at hcaps
          dsimp only at hcaps hk1b hk5b
          have hc1 : caps 1 = ((pyStrip line.toList).drop k0).take k1 := by
            rw [← hcaps]
            simp [setCap]
          have hc3 : caps 3 =
              ((((((pyStrip line.toList).drop k0).drop k1).drop k2).drop
                k3).drop k4).take k5 := by
            rw [← hcaps]
            simp [setCap]
          have hc4 : caps 4 = 'S' :: w := by
            rw [← hcaps]
            simp [setCap]
          have hdig1 : ∀ c ∈ ((pyStrip line.toList).drop k0).take k1,
              isPyDigit c = true := all_take_of_le_takeWhile hk1b
          have hdig3 : ∀ c ∈ ((((((pyStrip line.toList).drop k0).drop k1).drop
              k2).drop k3).drop k4).take k5, isPyDigit c = true :=
            all_take_of_le_takeWhile hk5b
          have hlen1 : (((pyStrip line.toList).drop k0).take k1).length = k1 := by
            have hb : k1 ≤ ((pyStrip line.toList).drop k0).length :=
              le_trans hk1b (takeWhile_length_le _ _)
            rw [List.length_take]
            omega
          have hlen3 : (((((((pyStrip line.toList).drop k0).drop k1).drop
              k2).drop k3).drop k4).take k5).length = k5 := by
            have hb : k5 ≤ ((((((pyStrip line.toList).drop k0).drop k1).drop
                k2).drop k3).drop k4).length :=
              le_trans hk5b (takeWhile_length_le _ _)
            rw [List.length_take]
            omega
          have e1 : pyStrip (caps 1) = ((pyStrip line.toList).drop k0).take k1 := by
            rw [hc1]
            exact pyStrip_of_no_space fun c hc => digit_not_space (hdig1 c hc)
          have e3 : pyStrip (caps 3) = ((((((pyStrip line.toList).drop k0).drop
              k1).drop k2).drop k3).drop k4).take k5 := by
            rw [hc3]
            exact pyStrip_of_no_space fun c hc => digit_not_space (hdig3 c hc)
          have e4 : (pyStrip (caps 4)).head? = some 'S' := by
            rw [hc4]
            exact pyStrip_head w (by decide)
          refine ⟨⟨?_, ?_, ?_⟩, ⟨?_, ?_, ?_⟩, ?_⟩
          · dsimp only
            rw [string_mk_length, e1, hlen1]
            exact hk1a
          · dsimp only
            rw [string_mk_length, e1, hlen1]
            exact hk1c 4 rfl
          · dsimp only
            rw [string_mk_toList, e1]
            exact hdig1
          · dsimp only
            rw [string_mk_length, e3, hlen3]
            exact hk5a
          · dsimp only
            rw [string_mk_length, e3, hlen3]
            exact hk5c 12 rfl
          · dsimp only
            rw [string_mk_toList, e3]
            exact hdig3
          · dsimp only
            rw [string_mk_toList]
            exact e4

theorem classifier_shape_invariant_witness :
    parse_voter_line "12  JOHN SMITH  123456789  S PCT.4" =
      some ⟨"12", "JOHN SMITH", "123456789", "S PCT.4"⟩ ∧
    ((1 ≤ ("12" : String).length ∧ ("12" : String).length ≤ 4 ∧
        (∀ c ∈ ("12" : String).toList, isPyDigit c = true)) ∧
      (9 ≤ ("123456789" : String).length ∧ ("123456789" : String).length ≤ 12 ∧
        (∀ c ∈ ("123456789" : String).toList, isPyDigit c = true)) ∧
      ("S PCT.4" : String).toList.head? = some 'S') :=
  ⟨by decide,
    classifier_shape_invariant "12  JOHN SMITH  123456789  S PCT.4"
      ⟨"12", "JOHN SMITH", "123456789", "S PCT.4"⟩ (by decide)⟩

end VoterPdf
